import Mathlib

/-!
# Verification of the livecaptran audio-to-phrase pipeline

Shallow embedding of the core pipeline of `src/audio.rs` (together with the
constants of `src/settings.rs`): the WAV encoder `encode_wav`, the energy
metric `rms`, the dispatch orchestration `send_transcription` /
`translate_text`, and the VAD + segmentation poll loop of
`start_audio_and_transcription`.

Modelling conventions:
* `f32` samples are idealised as exact rationals (`ℚ`); float rounding is not
  modelled.  The voiced/silent decision `rms(batch) > threshold` is embedded
  as the square-root-free decidable predicate `rmsGt`, proved equivalent to
  the real-valued comparison in `rmsGt_correct`.
* Machine integers are `Nat`/`Int`; the `as u32` casts of `encode_wav` are
  explicit `% 2^32` reductions, and the `as i16` float-to-int cast is
  truncation toward zero (`truncQ`) after the explicit `clamp`.
* The network is external: the transcription response's extracted `text`
  field and the chat response's extracted `content` field are inputs
  (`Option String`, `none` covering transport errors, non-JSON bodies and
  missing/non-string fields).
* Time, threads and the shared-memory cells are flattened into one poll-cycle
  step function `pollCycle`: each cycle receives the samples the capture
  callback appended since the previous drain, the current value of the shared
  sample-rate cell, the session-active flag, and the settings snapshot read
  at the top of the cycle.
* `String.trim` of Rust is modelled over the character list (`strTrim`),
  trimming ASCII whitespace; session-log records keep the logged texts but
  abstract the wall-clock timestamps.
-/

namespace Livecaptran

/-- `SILENCE_CHUNKS_TO_END` from `src/settings.rs` (line 4). -/
def SILENCE_CHUNKS_TO_END : Nat := 10

/-- `MAX_PHRASE_SECS` from `src/settings.rs` (line 5). -/
def MAX_PHRASE_SECS : Nat := 30

/-- `DisplayMode` from `src/settings.rs`. -/
inductive DisplayMode where
  | TranslationOnly : DisplayMode
  | Both : DisplayMode
deriving DecidableEq, Repr

/-! ## Energy metric (`rms`, audio.rs lines 39-44) -/

/-- `samples.iter().map(|s| s * s).sum::<f32>()`. -/
def sumSq (samples : List ℚ) : ℚ := (samples.map (fun s => s * s)).sum

/-- The radicand computed by `rms`: mean of the squares, `0` for an empty
batch (the early return of `rms`). -/
def meanSq (samples : List ℚ) : ℚ :=
  if samples.isEmpty then 0 else sumSq samples / (samples.length : ℚ)

/-- The voiced test `rms(&new_samples) > threshold` (audio.rs lines 383-384),
decided without taking the square root: for a nonnegative radicand `m`,
`Real.sqrt m > t ↔ t < 0 ∨ t ^ 2 < m`.  `rmsGt_correct` below proves this
equivalent to the real-valued comparison. -/
def rmsGt (samples : List ℚ) (threshold : ℚ) : Bool :=
  decide (threshold < 0 ∨ threshold ^ 2 < meanSq samples)

/-! ## Segmenter state (the VAD section of the poll loop, audio.rs 318-431) -/

/-- The mutable segmentation variables of the poll loop: `speaking`,
`phrase` and `silence_count` (audio.rs lines 318-320). -/
structure SegState where
  speaking : Bool
  phrase : List ℚ
  silenceCount : Nat
deriving DecidableEq, Repr

/-- The initial segmentation state (audio.rs lines 318-320). -/
def initSeg : SegState := ⟨false, [], 0⟩

/-- One execution of the VAD section of the poll loop (audio.rs lines
383-430) on the drained batch `newSamples`, given the settings snapshot's
`threshold` and the shared sample rate.  Returns the new segmentation state
together with the phrase slice passed to `send_transcription`, if any. -/
def vadStep (threshold : ℚ) (rate : Nat) (newSamples : List ℚ)
    (st : SegState) : SegState × Option (List ℚ) :=
  let isVoice := rmsGt newSamples threshold
  if st.speaking then
    let phrase := st.phrase ++ newSamples
    let silenceCount := if isVoice then 0 else st.silenceCount + 1
    let phraseTooLong := phrase.length > rate * MAX_PHRASE_SECS
    if SILENCE_CHUNKS_TO_END ≤ silenceCount ∨ phraseTooLong then
      let trimSamples := silenceCount * newSamples.length
      let e := phrase.length - trimSamples
      (⟨false, [], 0⟩, if rate / 2 < e then some (phrase.take e) else none)
    else
      (⟨true, phrase, silenceCount⟩, none)
  else if isVoice then
    (⟨true, newSamples, 0⟩, none)
  else
    (st, none)

/-- Iterated VAD steps over a list of drained batches, collecting every
dispatched phrase in order. -/
def vadSteps (threshold : ℚ) (rate : Nat) :
    List (List ℚ) → SegState → SegState × List (List ℚ)
  | [], st => (st, [])
  | b :: bs, st =>
      let r := vadStep threshold rate b st
      let rest := vadSteps threshold rate bs r.1
      (rest.1, r.2.toList ++ rest.2)

/-! ## Rust `str::trim`, modelled on the character list (ASCII whitespace) -/

/-- Drop leading and trailing whitespace from a character list. -/
def trimCharList (cs : List Char) : List Char :=
  ((cs.dropWhile Char.isWhitespace).reverse.dropWhile Char.isWhitespace).reverse

/-- Rust `str::trim` (as used on the transcription text and the translation
content), over the string's character list. -/
def strTrim (s : String) : String := ⟨trimCharList s.data⟩

/-! ## Dispatch orchestration (`translate_text` and `send_transcription`,
audio.rs lines 46-194) -/

/-- The system instruction built by `translate_text` (audio.rs lines 55-61). -/
def systemPrompt (targetLanguage : String) : String :=
  "You are a real-time translator for a scientific presentation. Translate the following spoken text into "
    ++ targetLanguage ++
    ". Preserve technical and scientific terminology accurately. Output only a single, most probable translation. Print only the translated text and absolutely nothing else—no alternatives, no explanations, no notes, no quotation marks."

/-- The message list built by `translate_text` (audio.rs lines 55-69), as
(role, content) pairs: the system instruction, then the history pairs as
(user, assistant) turns in order, then the new user turn. -/
def translateMessages (targetLanguage text : String)
    (history : List (String × String)) : List (String × String) :=
  (("system", systemPrompt targetLanguage) ::
      history.flatMap (fun p => [("user", p.1), ("assistant", p.2)]))
    ++ [("user", text)]

/-- Response handling of `translate_text` (audio.rs lines 86-103): `content`
is the extracted `choices[0].message.content`, `none` covering transport
errors, non-JSON bodies and a missing/non-string field; a whitespace-only
content is treated as no translation. -/
def translateResult (content : Option String) : Option String :=
  match content with
  | none => none
  | some c =>
      let translated := strTrim c
      if translated = "" then none else some translated

/-- One session-log entry (audio.rs lines 160-169): the transcribed text and
the translated text when present.  Timestamps are abstracted away. -/
structure LogRecord where
  original : String
  translated : Option String
deriving DecidableEq, Repr

/-- The state touched by the dispatch orchestrator: the published display
string, the translation history, and the records written to session logs. -/
structure DispatchState where
  transcript : String
  history : List (String × String)
  log : List LogRecord
deriving DecidableEq, Repr

/-- `history.push_back(pair)` followed by `pop_front` when the length
exceeds 3 (audio.rs lines 173-176). -/
def pushTrim (history : List (String × String)) (pair : String × String) :
    List (String × String) :=
  let h1 := history ++ [pair]
  if 3 < h1.length then h1.tail else h1

/-- `send_transcription` (audio.rs lines 106-194), given the extracted
`text` field of the transcription response and the extracted `content` field
of the chat response (each `none` on transport/parse failure or a
missing/non-string field).  Returns the updated dispatch state and whether a
translation request was issued. -/
def send_transcription (targetLanguage : String) (dm : DisplayMode)
    (logOpen : Bool) (textField chatContent : Option String)
    (st : DispatchState) : DispatchState × Bool :=
  match textField with
  | none => (st, false)
  | some raw =>
      let text := strTrim raw
      if text = "" then (st, false)
      else if targetLanguage = "" then
        let log1 := if logOpen then st.log ++ [⟨text, none⟩] else st.log
        (⟨text, st.history, log1⟩, false)
      else
        let maybeTranslated := translateResult chatContent
        let log1 :=
          if logOpen then st.log ++ [⟨text, maybeTranslated⟩] else st.log
        match maybeTranslated with
        | some translated =>
            let history1 := pushTrim st.history (text, translated)
            let display :=
              match dm with
              | DisplayMode.TranslationOnly => translated
              | DisplayMode.Both => text ++ "\n" ++ translated
            (⟨display, history1, log1⟩, true)
        | none => (⟨text, st.history, log1⟩, true)

/-! ## The poll loop (`start_audio_and_transcription`, audio.rs 305-433) -/

/-- The mutable state of the VAD + transcription thread together with the
shared cells it owns across cycles: the shared sample buffer, the
segmentation variables, `was_session_active`, whether a session log file is
open, and the dispatch state. -/
structure LoopState where
  buffer : List ℚ
  seg : SegState
  wasSessionActive : Bool
  logOpen : Bool
  dispatch : DispatchState
deriving DecidableEq, Repr

/-- State at thread start (audio.rs lines 318-323; the shared transcript
starts empty, app.rs line 115). -/
def initLoop : LoopState := ⟨[], initSeg, false, false, ⟨"", [], []⟩⟩

/-- The environment of one poll cycle: the samples the capture callback
appended since the previous drain, the value read from the shared
sample-rate cell, the session-active flag, the settings snapshot read at the
top of the cycle, and the network responses that a dispatch in this cycle
would receive. -/
structure CycleInput where
  arriving : List ℚ
  rate : Nat
  isActive : Bool
  threshold : ℚ
  targetLanguage : String
  displayMode : DisplayMode
  textField : Option String
  chatContent : Option String
deriving DecidableEq, Repr

/-- Session state transitions (audio.rs lines 342-362): a rising edge of
the session flag opens a log file; a falling edge closes it, clears the
published transcript and resets the segmentation variables. -/
def sessionEdge (isActive : Bool) (st : LoopState) : LoopState :=
  if isActive && !st.wasSessionActive then
    { st with logOpen := true, wasSessionActive := true }
  else if !isActive && st.wasSessionActive then
    { st with logOpen := false,
              dispatch := { st.dispatch with transcript := "" },
              seg := initSeg,
              wasSessionActive := false }
  else st

/-- One iteration of the poll loop (audio.rs lines 325-431): read the rate
(skip while zero, without draining), drain the whole buffer (skip when
empty), handle session edges, skip when inactive, then run the VAD step and,
when it finalizes a long-enough phrase, the dispatch orchestrator. -/
def pollCycle (inp : CycleInput) (st : LoopState) : LoopState :=
  let buffer := st.buffer ++ inp.arriving
  if inp.rate = 0 then { st with buffer := buffer }
  else
    let newSamples := buffer
    let st1 : LoopState := { st with buffer := [] }
    if newSamples.isEmpty then st1
    else
      let st2 := sessionEdge inp.isActive st1
      if !inp.isActive then st2
      else
        let r := vadStep inp.threshold inp.rate newSamples st2.seg
        match r.2 with
        | none => { st2 with seg := r.1 }
        | some phraseSlice =>
            let d := send_transcription inp.targetLanguage inp.displayMode
              st2.logOpen inp.textField inp.chatContent st2.dispatch
            let _ := phraseSlice
            { st2 with seg := r.1, dispatch := d.1 }

/-- Run the poll loop over a list of cycle environments. -/
def runLoop (inputs : List CycleInput) (st : LoopState) : LoopState :=
  inputs.foldl (fun s i => pollCycle i s) st

/-! ## WAV encoding (`encode_wav`, audio.rs lines 12-37) -/

/-- Little-endian bytes of a `u16` value. -/
def u16le (n : Nat) : List Nat := [n % 256, n / 2 ^ 8 % 256]

/-- Little-endian bytes of a `u32` value. -/
def u32le (n : Nat) : List Nat :=
  [n % 256, n / 2 ^ 8 % 256, n / 2 ^ 16 % 256, n / 2 ^ 24 % 256]

/-- `2^32`, the modulus of `u32` arithmetic. -/
def U32 : Nat := 2 ^ 32

/-- Truncation of a rational toward zero (the rounding of Rust's
float-to-integer `as` cast once the value is within range). -/
def truncQ (q : ℚ) : ℤ := q.num.sign * (q.num.natAbs / q.den : ℕ)

/-- `(s * 32767.0).clamp(-32768.0, 32767.0) as i16` (audio.rs line 33):
scale, clamp, then truncate toward zero. -/
def sampleToI16 (s : ℚ) : ℤ := truncQ (max (-32768) (min 32767 (s * 32767)))

/-- The two little-endian bytes of an `i16` value (two's complement). -/
def i16le (i : ℤ) : List Nat := u16le (i % 65536).toNat

/-- `encode_wav` (audio.rs lines 12-37): the 44-byte canonical header
followed by the 16-bit little-endian samples.  The `as u32` casts are the
explicit `% U32` reductions. -/
def encode_wav (samples : List ℚ) (sample_rate : Nat) : List Nat :=
  let num_samples := samples.length
  let data_size := (num_samples * 2) % U32
  let file_size := (36 + data_size) % U32
  let byte_rate := (sample_rate * 2) % U32
  [82, 73, 70, 70]
    ++ u32le file_size
    ++ [87, 65, 86, 69]
    ++ [102, 109, 116, 32]
    ++ u32le 16
    ++ u16le 1
    ++ u16le 1
    ++ u32le sample_rate
    ++ u32le byte_rate
    ++ u16le 2
    ++ u16le 16
    ++ [100, 97, 116, 97]
    ++ u32le data_size
    ++ samples.flatMap (fun s => i16le (sampleToI16 s))

/-- The numeric value declared by a little-endian byte field. -/
def parseLE (bytes : List Nat) : Nat :=
  bytes.foldr (fun b acc => b + 256 * acc) 0

/-- The `len`-byte field of `buf` starting at offset `off`. -/
def field (buf : List Nat) (off len : Nat) : List Nat := (buf.drop off).take len

/-! # Theorems -/

/-! ## Soundness of the square-root-free voiced decision -/

theorem sumSq_nonneg (samples : List ℚ) : 0 ≤ sumSq samples := by
  induction samples with
  | nil => simp [sumSq]
  | cons a l ih =>
      simp only [sumSq, List.map_cons, List.sum_cons]
      have : 0 ≤ a * a := mul_self_nonneg a
      have h2 : 0 ≤ (l.map (fun s => s * s)).sum := ih
      linarith

theorem meanSq_nonneg (samples : List ℚ) : 0 ≤ meanSq samples := by
  unfold meanSq
  split
  · exact le_refl 0
  · exact div_nonneg (sumSq_nonneg samples) (by positivity)

/-- Soundness of the square-root-free embedding of the voiced decision:
`rmsGt samples t` holds exactly when the real-valued root-mean-square of the
batch exceeds `t`. -/
theorem rmsGt_correct (samples : List ℚ) (t : ℚ) :
    rmsGt samples t = true ↔ (t : ℝ) < Real.sqrt (meanSq samples) := by
  unfold rmsGt
  rw [decide_eq_true_iff]
  constructor
  · intro h
    by_cases ht : (0 : ℚ) ≤ t
    · have ht' : (0 : ℝ) ≤ (t : ℝ) := by exact_mod_cast ht
      rw [Real.lt_sqrt ht']
      rcases h with hneg | hlt
      · exact absurd hneg (not_lt.mpr ht)
      · exact_mod_cast hlt
    · have : (t : ℝ) < 0 := by exact_mod_cast not_le.mp ht
      exact lt_of_lt_of_le this (Real.sqrt_nonneg _)
  · intro h
    by_cases ht : (0 : ℚ) ≤ t
    · right
      have ht' : (0 : ℝ) ≤ (t : ℝ) := by exact_mod_cast ht
      rw [Real.lt_sqrt ht'] at h
      exact_mod_cast h
    · left; exact not_le.mp ht

/-! ## C3: Idle-state behaviour -/

/-- C3: while the Segmenter is Idle, a silent batch (`rms ≤ threshold`)
leaves the whole segmentation state unchanged and accumulates nothing, and a
voiced batch (`rms > threshold`) transitions to Speaking with a zero silence
counter and an accumulator holding exactly that batch; neither dispatches. -/
theorem idle_step_spec (threshold : ℚ) (rate : Nat) (b : List ℚ)
    (st : SegState) (hidle : st.speaking = false) :
    (rmsGt b threshold = false → vadStep threshold rate b st = (st, none)) ∧
    (rmsGt b threshold = true →
      vadStep threshold rate b st = (⟨true, b, 0⟩, none)) := by
  constructor
  · intro hb
    simp [vadStep, hidle, hb]
  · intro hb
    simp [vadStep, hidle, hb]

theorem idle_step_spec_witness :
    vadStep 0 1 [0] initSeg = (initSeg, none) ∧
    vadStep 0 1 [1, 1] initSeg = (⟨true, [1, 1], 0⟩, none) := by
  constructor
  · exact (idle_step_spec 0 1 [0] initSeg rfl).1
      (by norm_num [rmsGt, meanSq, sumSq])
  · exact (idle_step_spec 0 1 [1, 1] initSeg rfl).2
      (by norm_num [rmsGt, meanSq, sumSq])

/-! ## C2: the finalize path -/

/-- C2: whenever finalize triggers in the Speaking state, the trim length is
the (updated) silence counter times the length of the last drained batch,
the candidate phrase is the accumulator prefix of length
`accumulated_length - trim_length` clamped at zero, it is dispatched exactly
when its length exceeds `rate / 2` samples, and in either case the
accumulator is cleared, the silence counter reset to 0, and the state
returns to Idle. -/
theorem finalize_spec (threshold : ℚ) (rate : Nat) (b : List ℚ)
    (st : SegState) (hspeak : st.speaking = true) (c e : Nat)
    (hc : c = if rmsGt b threshold then 0 else st.silenceCount + 1)
    (hfin : SILENCE_CHUNKS_TO_END ≤ c ∨
      rate * MAX_PHRASE_SECS < (st.phrase ++ b).length)
    (he : e = (st.phrase ++ b).length - c * b.length) :
    (vadStep threshold rate b st).1 = initSeg ∧
    (vadStep threshold rate b st).2 =
      (if rate / 2 < e then some ((st.phrase ++ b).take e) else none) ∧
    ((st.phrase ++ b).take e).length = e := by
  subst hc he
  have hstep : vadStep threshold rate b st =
      (initSeg,
        if rate / 2 <
            (st.phrase ++ b).length -
              (if rmsGt b threshold then 0 else st.silenceCount + 1) * b.length
        then some ((st.phrase ++ b).take
            ((st.phrase ++ b).length -
              (if rmsGt b threshold then 0 else st.silenceCount + 1) * b.length))
        else none) := by
    simp only [vadStep, hspeak, if_true, gt_iff_lt]
    rw [if_pos hfin]
    rfl
  refine ⟨by rw [hstep], by rw [hstep], ?_⟩
  simp only [List.length_take]
  omega

theorem finalize_spec_witness :
    (vadStep 0 2 [0] ⟨true, List.replicate 20 1, 9⟩).1 = initSeg ∧
    (vadStep 0 2 [0] ⟨true, List.replicate 20 1, 9⟩).2 =
      some ((List.replicate 20 (1 : ℚ) ++ [0]).take 11) := by
  have h := finalize_spec 0 2 [0] ⟨true, List.replicate 20 1, 9⟩ rfl 10 11
    (by norm_num [rmsGt, meanSq, sumSq])
    (Or.inl (by norm_num [SILENCE_CHUNKS_TO_END]))
    (by simp)
  refine ⟨h.1, ?_⟩
  rw [h.2.1]
  norm_num

/-! ## C7: empty transcription responses are a no-op -/

/-- C7: when the transcription response lacks a string `text` field (also on
transport or parse failure), or its `text` trims to the empty string, the
orchestrator performs no further step: the published result, the session log
and the translation history are unchanged, and no translation request is
issued. -/
theorem empty_transcription_noop (targetLanguage : String)
    (dm : DisplayMode) (logOpen : Bool) (textField chatContent : Option String)
    (st : DispatchState)
    (h : textField = none ∨ ∃ raw, textField = some raw ∧ strTrim raw = "") :
    send_transcription targetLanguage dm logOpen textField chatContent st
      = (st, false) := by
  rcases h with h | ⟨raw, hraw, htrim⟩
  · subst h; rfl
  · subst hraw
    simp [send_transcription, htrim]

theorem empty_transcription_noop_witness :
    send_transcription "en" DisplayMode.Both true (some "  ") (some "bonjour")
      ⟨"old", [("a", "b")], []⟩ = (⟨"old", [("a", "b")], []⟩, false) :=
  empty_transcription_noop "en" DisplayMode.Both true (some "  ")
    (some "bonjour") ⟨"old", [("a", "b")], []⟩ (Or.inr ⟨"  ", rfl, rfl⟩)

/-! ## C1: sustained silence ends a phrase exactly at the 10th silent batch -/

theorem vadSteps_silent_run (threshold : ℚ) (rate : Nat)
    (batches : List (List ℚ)) :
    ∀ st : SegState, st.speaking = true →
      (∀ b ∈ batches, rmsGt b threshold = false) →
      (st.phrase ++ batches.flatten).length ≤ rate * MAX_PHRASE_SECS →
      st.silenceCount + batches.length < SILENCE_CHUNKS_TO_END →
      vadSteps threshold rate batches st =
        (⟨true, st.phrase ++ batches.flatten,
          st.silenceCount + batches.length⟩, []) := by
  induction batches with
  | nil =>
      intro st hs _ _ _
      cases st
      simp_all [vadSteps]
  | cons b bs ih =>
      intro st hs hsilent hcap hcnt
      have hb : rmsGt b threshold = false := hsilent b (List.mem_cons_self b bs)
      have hcap1 : ¬ (rate * MAX_PHRASE_SECS < (st.phrase ++ b).length) := by
        simp only [List.flatten_cons, List.length_append] at hcap ⊢
        omega
      have hcnt1 : ¬ (SILENCE_CHUNKS_TO_END ≤ st.silenceCount + 1) := by
        simp only [List.length_cons] at hcnt
        omega
      have hstep : vadStep threshold rate b st =
          (⟨true, st.phrase ++ b, st.silenceCount + 1⟩, none) := by
        simp only [vadStep, hs, hb, Bool.false_eq_true, if_false, if_true,
          gt_iff_lt]
        rw [if_neg (not_or.mpr ⟨hcnt1, hcap1⟩)]
      have hunfold : vadSteps threshold rate (b :: bs) st =
          vadSteps threshold rate bs ⟨true, st.phrase ++ b, st.silenceCount + 1⟩ := by
        rw [vadSteps, hstep]
        simp
      have hcap' : ((st.phrase ++ b) ++ bs.flatten).length ≤
          rate * MAX_PHRASE_SECS := by
        simp only [List.flatten_cons, List.length_append,
          List.append_assoc] at hcap ⊢
        omega
      have hcnt' : (st.silenceCount + 1) + bs.length < SILENCE_CHUNKS_TO_END := by
        simp only [List.length_cons] at hcnt
        omega
      rw [hunfold, ih ⟨true, st.phrase ++ b, st.silenceCount + 1⟩ rfl
        (fun b' hb' => hsilent b' (List.mem_cons_of_mem b hb')) hcap' hcnt']
      simp only [Prod.mk.injEq, SegState.mk.injEq, true_and, and_true,
        List.flatten_cons, List.append_assoc, List.length_cons]
      omega

theorem vadSteps_append (threshold : ℚ) (rate : Nat) (l1 l2 : List (List ℚ)) :
    ∀ st, vadSteps threshold rate (l1 ++ l2) st =
      ((vadSteps threshold rate l2 (vadSteps threshold rate l1 st).1).1,
       (vadSteps threshold rate l1 st).2 ++
         (vadSteps threshold rate l2 (vadSteps threshold rate l1 st).1).2) := by
  induction l1 with
  | nil => intro st; simp [vadSteps]
  | cons b bs ih =>
      intro st
      rw [List.cons_append, vadSteps, vadSteps, ih]
      simp [List.append_assoc]

/-- C1: while Speaking with a just-reset trailing-silence counter and the
max-duration cap not hit, a run of consecutive silent batches triggers
finalize exactly on the cycle where the run length reaches
`SILENCE_CHUNKS_TO_END` (10): after `k < 10` silent batches the Segmenter is
still Speaking with counter `k` and nothing dispatched, on the 10th it
returns to Idle with a cleared accumulator; and any voiced batch resets the
trailing-silence counter to 0. -/
theorem silent_run_finalizes_exactly_at_ten (threshold : ℚ) (rate : Nat)
    (st : SegState) (batches : List (List ℚ))
    (hspeak : st.speaking = true) (hcnt : st.silenceCount = 0)
    (hsilent : ∀ b ∈ batches, rmsGt b threshold = false)
    (hcap : (st.phrase ++ batches.flatten).length ≤ rate * MAX_PHRASE_SECS)
    (hlen : batches.length = SILENCE_CHUNKS_TO_END) :
    (∀ k < SILENCE_CHUNKS_TO_END,
      vadSteps threshold rate (batches.take k) st =
        (⟨true, st.phrase ++ (batches.take k).flatten, k⟩, [])) ∧
    (vadSteps threshold rate batches st).1 = initSeg ∧
    (∀ (b : List ℚ) (s : SegState), rmsGt b threshold = true →
      (vadStep threshold rate b s).1.silenceCount = 0) := by
  have hcapk : ∀ k, (st.phrase ++ (batches.take k).flatten).length ≤
      rate * MAX_PHRASE_SECS := by
    intro k
    have h1 : (batches.take k).flatten.length ≤ batches.flatten.length := by
      conv_rhs => rw [← List.take_append_drop k batches]
      rw [List.flatten_append, List.length_append]
      omega
    simp only [List.length_append] at hcap ⊢
    omega
  have hpre : ∀ k < SILENCE_CHUNKS_TO_END,
      vadSteps threshold rate (batches.take k) st =
        (⟨true, st.phrase ++ (batches.take k).flatten, k⟩, []) := by
    intro k hk
    have hktake : (batches.take k).length = k := by
      simp only [List.length_take, hlen]
      omega
    have h := vadSteps_silent_run threshold rate (batches.take k) st hspeak
      (fun b hb => hsilent b (List.take_subset k batches hb))
      (hcapk k)
      (by rw [hcnt, hktake]; omega)
    rw [h, hcnt, hktake]
    simp
  refine ⟨hpre, ?_, ?_⟩
  · obtain ⟨b10, hb10⟩ : ∃ x, batches.drop 9 = [x] := by
      rw [← List.length_eq_one]
      simp only [List.length_drop, hlen]
      rfl
    have hsplit : batches = batches.take 9 ++ [b10] := by
      conv_lhs => rw [← List.take_append_drop 9 batches]
      rw [hb10]
    have h9 := hpre 9 (by norm_num [SILENCE_CHUNKS_TO_END])
    have hbmem : rmsGt b10 threshold = false := by
      refine hsilent b10 ?_
      rw [hsplit]
      exact List.mem_append_right _ (List.mem_singleton_self b10)
    rw [hsplit, vadSteps_append, h9]
    simp [vadSteps, vadStep, hbmem, SILENCE_CHUNKS_TO_END, initSeg]
  · intro b s hv
    by_cases hsp : s.speaking = true
    · simp only [vadStep, hsp, hv, if_true]
      split
      · rfl
      · rfl
    · simp only [Bool.not_eq_true] at hsp
      simp [vadStep, hsp, hv]

theorem silent_run_finalizes_exactly_at_ten_witness :
    (vadSteps 0 1 [[0], [0], [0], [0], [0], [0], [0], [0], [0], [0]]
      ⟨true, [(1 : ℚ)], 0⟩).1 = initSeg ∧
    vadSteps 0 1 [[0], [0], [0]] ⟨true, [(1 : ℚ)], 0⟩ =
      (⟨true, [1, 0, 0, 0], 3⟩, []) := by
  have h := silent_run_finalizes_exactly_at_ten 0 1 ⟨true, [(1 : ℚ)], 0⟩
    [[0], [0], [0], [0], [0], [0], [0], [0], [0], [0]] rfl rfl
    (by
      intro b hb
      simp only [List.mem_cons, List.not_mem_nil, or_false] at hb
      have hb0 : b = [(0 : ℚ)] := by tauto
      rw [hb0]
      norm_num [rmsGt, meanSq, sumSq])
    (by norm_num [MAX_PHRASE_SECS])
    (by norm_num [SILENCE_CHUNKS_TO_END])
  refine ⟨h.2.1, ?_⟩
  have h3 := h.1 3 (by norm_num [SILENCE_CHUNKS_TO_END])
  simpa using h3

/-! ## Poll-cycle case lemmas -/

theorem pollCycle_rate_zero (i : CycleInput) (st : LoopState)
    (hr : i.rate = 0) :
    pollCycle i st = { st with buffer := st.buffer ++ i.arriving } := by
  simp [pollCycle, hr]

theorem pollCycle_empty_batch (i : CycleInput) (st : LoopState)
    (hr : i.rate ≠ 0) (hne : st.buffer ++ i.arriving = []) :
    pollCycle i st = { st with buffer := [] } := by
  simp [pollCycle, hr, hne]

theorem pollCycle_falling (i : CycleInput) (st : LoopState)
    (hact : i.isActive = false) (hr : i.rate ≠ 0)
    (hne : st.buffer ++ i.arriving ≠ []) (hwas : st.wasSessionActive = true) :
    pollCycle i st =
      { st with
          buffer := []
          seg := initSeg
          logOpen := false
          wasSessionActive := false
          dispatch := { st.dispatch with transcript := "" } } := by
  have hne' : (st.buffer ++ i.arriving).isEmpty = false := by
    simpa [List.isEmpty_iff] using hne
  simp [pollCycle, hr, hne', sessionEdge, hact, hwas]

theorem pollCycle_inactive_noop (i : CycleInput) (st : LoopState)
    (hact : i.isActive = false) (hwas : st.wasSessionActive = false) :
    pollCycle i st =
      { st with buffer :=
          if i.rate = 0 then st.buffer ++ i.arriving else [] } := by
  by_cases hr : i.rate = 0
  · simp [pollCycle, hr]
  · by_cases hne : st.buffer ++ i.arriving = []
    · simp [pollCycle, hr, hne]
    · have hne' : (st.buffer ++ i.arriving).isEmpty = false := by
        simpa [List.isEmpty_iff] using hne
      simp [pollCycle, hr, hne', sessionEdge, hact, hwas]

theorem pollCycle_active_was (i : CycleInput) (st : LoopState)
    (hact : i.isActive = true) (hr : i.rate ≠ 0)
    (hne : st.buffer ++ i.arriving ≠ []) :
    (pollCycle i st).wasSessionActive = true := by
  have hne' : (st.buffer ++ i.arriving).isEmpty = false := by
    simpa [List.isEmpty_iff] using hne
  have hedge : ∀ s : LoopState, (sessionEdge true s).wasSessionActive = true := by
    intro s
    by_cases hw : s.wasSessionActive <;> simp [sessionEdge, hw]
  simp only [pollCycle, hr, if_false, hne', hact, Bool.not_true,
    Bool.false_eq_true]
  cases hm : (vadStep i.threshold i.rate (st.buffer ++ i.arriving)
      (sessionEdge true { st with buffer := [] }).seg).2 <;>
    simp [hm, hedge]

theorem pollCycle_preserves_idle (i : CycleInput) (st : LoopState)
    (h : st.wasSessionActive = false → st.seg = initSeg) :
    (pollCycle i st).wasSessionActive = false →
      (pollCycle i st).seg = initSeg := by
  by_cases hr : i.rate = 0
  · rw [pollCycle_rate_zero i st hr]; exact h
  by_cases hne : st.buffer ++ i.arriving = []
  · rw [pollCycle_empty_batch i st hr hne]; exact h
  by_cases hact : i.isActive = true
  · intro hw
    rw [pollCycle_active_was i st hact hr hne] at hw
    exact absurd hw (by simp)
  · have hact' : i.isActive = false := by simpa using hact
    by_cases hwas : st.wasSessionActive = true
    · rw [pollCycle_falling i st hact' hr hne hwas]
      intro _; rfl
    · have hwas' : st.wasSessionActive = false := by simpa using hwas
      rw [pollCycle_inactive_noop i st hact' hwas']
      intro _
      exact h hwas'

theorem runLoop_idle_invariant (inputs : List CycleInput) :
    ∀ st : LoopState, (st.wasSessionActive = false → st.seg = initSeg) →
      ((runLoop inputs st).wasSessionActive = false →
        (runLoop inputs st).seg = initSeg) := by
  induction inputs with
  | nil => intro st h; exact h
  | cons i is ih =>
      intro st h
      have hstep : runLoop (i :: is) st = runLoop is (pollCycle i st) := rfl
      rw [hstep]
      exact ih _ (pollCycle_preserves_idle i st h)

/-! ## C5: rising edges start from the reset state -/

/-- C5: whenever a reachable loop state observes the session flag while
`was_session_active` is false (i.e. on any rising edge), the segmentation
state is already Idle with an empty accumulator and a zero silence counter,
and the rising-edge handling leaves it that way — so the cycle's VAD
processing (and every later poll) starts from the reset state. -/
theorem rising_edge_reset_before_vad (inputs : List CycleInput)
    (hwas : (runLoop inputs initLoop).wasSessionActive = false) :
    (runLoop inputs initLoop).seg = initSeg ∧
    (sessionEdge true (runLoop inputs initLoop)).seg = initSeg := by
  have hseg : (runLoop inputs initLoop).seg = initSeg :=
    runLoop_idle_invariant inputs initLoop (fun _ => rfl) hwas
  refine ⟨hseg, ?_⟩
  rw [sessionEdge]
  rw [hwas]
  simp [hseg]

theorem rising_edge_reset_before_vad_witness :
    (runLoop [⟨[1], 1, false, 0, "", DisplayMode.Both, none, none⟩]
      initLoop).seg = initSeg := by
  have hwas : (runLoop [⟨[1], 1, false, 0, "", DisplayMode.Both, none, none⟩]
      initLoop).wasSessionActive = false := by
    show (pollCycle ⟨[1], 1, false, 0, "", DisplayMode.Both, none, none⟩
      initLoop).wasSessionActive = false
    rw [pollCycle_inactive_noop _ _ rfl rfl]
    rfl
  exact (rising_edge_reset_before_vad _ hwas).1

/-! ## C6: session-end resets and is idempotent -/

/-- C6: processing a falling edge of session-active clears the phrase
accumulator, resets the VAD state to Idle with a zero silence counter,
closes the log sink and clears the published result to the empty string; a
second consecutive inactive observation is a no-op (it changes nothing but
the drained buffer), leaving the accumulator and published result empty. -/
theorem session_end_idempotent (st : LoopState) (i1 i2 : CycleInput)
    (hact1 : i1.isActive = false) (hr1 : i1.rate ≠ 0)
    (hne1 : st.buffer ++ i1.arriving ≠ [])
    (hwas : st.wasSessionActive = true)
    (hact2 : i2.isActive = false) :
    (pollCycle i1 st).seg = initSeg ∧
    (pollCycle i1 st).dispatch.transcript = "" ∧
    (pollCycle i1 st).logOpen = false ∧
    (pollCycle i1 st).wasSessionActive = false ∧
    (pollCycle i2 (pollCycle i1 st)).seg = initSeg ∧
    (pollCycle i2 (pollCycle i1 st)).dispatch = (pollCycle i1 st).dispatch ∧
    (pollCycle i2 (pollCycle i1 st)).wasSessionActive = false ∧
    (pollCycle i2 (pollCycle i1 st)).logOpen = false := by
  have h1 := pollCycle_falling i1 st hact1 hr1 hne1 hwas
  have hw1 : (pollCycle i1 st).wasSessionActive = false := by rw [h1]
  have h2 := pollCycle_inactive_noop i2 (pollCycle i1 st) hact2 hw1
  refine ⟨by rw [h1], by rw [h1], by rw [h1], hw1, ?_, ?_, ?_, ?_⟩ <;>
    rw [h2, h1]

theorem session_end_idempotent_witness :
    (pollCycle ⟨[1], 1, false, 0, "", DisplayMode.Both, none, none⟩
      ⟨[], ⟨true, [1, 1], 4⟩, true, true, ⟨"hello", [("a", "b")], []⟩⟩).seg
      = initSeg ∧
    (pollCycle ⟨[], 0, false, 0, "", DisplayMode.Both, none, none⟩
      (pollCycle ⟨[1], 1, false, 0, "", DisplayMode.Both, none, none⟩
        ⟨[], ⟨true, [1, 1], 4⟩, true, true,
          ⟨"hello", [("a", "b")], []⟩⟩)).dispatch.transcript = "" := by
  have h := session_end_idempotent
    ⟨[], ⟨true, [1, 1], 4⟩, true, true, ⟨"hello", [("a", "b")], []⟩⟩
    ⟨[1], 1, false, 0, "", DisplayMode.Both, none, none⟩
    ⟨[], 0, false, 0, "", DisplayMode.Both, none, none⟩
    rfl (by simp) (by simp) rfl rfl
  refine ⟨h.1, ?_⟩
  rw [h.2.2.2.2.2.1, h.2.1]

/-! ## C10: zero-rate and empty-batch cycles act on nothing -/

/-- C10: a cycle that reads a zero sample rate does not drain the shared
buffer at all and changes no other state; a cycle that drains an empty batch
changes nothing but the (empty) drain; hence a falling edge of
session-active takes effect only in a cycle that drains a non-empty batch
with a non-zero rate, where it clears the published result and the
accumulator. -/
theorem skip_cycles_defer_session_edges (i : CycleInput) (st : LoopState) :
    (i.rate = 0 →
      pollCycle i st = { st with buffer := st.buffer ++ i.arriving }) ∧
    (i.rate ≠ 0 → st.buffer ++ i.arriving = [] →
      pollCycle i st = { st with buffer := [] }) ∧
    (i.rate ≠ 0 → st.buffer ++ i.arriving ≠ [] → i.isActive = false →
      st.wasSessionActive = true →
      (pollCycle i st).dispatch.transcript = "" ∧
      (pollCycle i st).seg = initSeg ∧
      (pollCycle i st).wasSessionActive = false) :=
  ⟨fun hr => pollCycle_rate_zero i st hr,
   fun hr hne => pollCycle_empty_batch i st hr hne,
   fun hr hne hact hwas => by
     rw [pollCycle_falling i st hact hr hne hwas]
     exact ⟨rfl, rfl, rfl⟩⟩

theorem skip_cycles_defer_session_edges_witness :
    pollCycle ⟨[1], 0, false, 0, "", DisplayMode.Both, none, none⟩
      ⟨[2], ⟨true, [3], 2⟩, true, true, ⟨"hello", [], []⟩⟩
      = ⟨[2, 1], ⟨true, [3], 2⟩, true, true, ⟨"hello", [], []⟩⟩ := by
  have h := (skip_cycles_defer_session_edges
    ⟨[1], 0, false, 0, "", DisplayMode.Both, none, none⟩
    ⟨[2], ⟨true, [3], 2⟩, true, true, ⟨"hello", [], []⟩⟩).1 rfl
  simpa using h

/-! ## C4: the max-duration cap

The claimed end-of-cycle invariant fails as stated: the Idle → Speaking
transition starts the accumulator with the whole drained batch and performs
no cap check, so a single voiced batch longer than
`rate * MAX_PHRASE_SECS` leaves the accumulator above the cap with no
finalize in that cycle.  Under the proviso that every drained batch holds at
most `rate * MAX_PHRASE_SECS` samples, the invariant holds. -/

theorem sessionEdge_active_seg (s : LoopState) :
    (sessionEdge true s).seg = s.seg := by
  by_cases hw : s.wasSessionActive <;> simp [sessionEdge, hw]

theorem sessionEdge_buffer (a : Bool) (s : LoopState) :
    (sessionEdge a s).buffer = s.buffer := by
  cases a <;> by_cases hw : s.wasSessionActive <;> simp [sessionEdge, hw]

theorem pollCycle_active_eq (i : CycleInput) (st : LoopState)
    (hact : i.isActive = true) (hr : i.rate ≠ 0)
    (hne : st.buffer ++ i.arriving ≠ []) :
    (pollCycle i st).seg =
      (vadStep i.threshold i.rate (st.buffer ++ i.arriving) st.seg).1 ∧
    (pollCycle i st).buffer = [] := by
  have hne' : (st.buffer ++ i.arriving).isEmpty = false := by
    simpa [List.isEmpty_iff] using hne
  have hseg : (sessionEdge true { st with buffer := [] }).seg = st.seg :=
    sessionEdge_active_seg _
  simp only [pollCycle, hr, if_false, hne', hact, Bool.not_true,
    Bool.false_eq_true, if_neg, hseg]
  cases hm : (vadStep i.threshold i.rate (st.buffer ++ i.arriving) st.seg).2 <;>
    simp [hm, sessionEdge_buffer]

theorem vadStep_cap (threshold : ℚ) (rate : Nat) (b : List ℚ) (st : SegState)
    (hb : b.length ≤ rate * MAX_PHRASE_SECS)
    (hst : st.phrase = [] ∨ st.phrase.length ≤ rate * MAX_PHRASE_SECS) :
    (vadStep threshold rate b st).1.phrase = [] ∨
    (vadStep threshold rate b st).1.phrase.length ≤ rate * MAX_PHRASE_SECS := by
  by_cases hs : st.speaking = true
  · by_cases hfin : SILENCE_CHUNKS_TO_END ≤
        (if rmsGt b threshold then 0 else st.silenceCount + 1) ∨
        rate * MAX_PHRASE_SECS < (st.phrase ++ b).length
    · simp only [vadStep, hs, if_true, gt_iff_lt]
      rw [if_pos hfin]
      left
      rfl
    · simp only [vadStep, hs, if_true, gt_iff_lt]
      rw [if_neg hfin]
      right
      push_neg at hfin
      simpa using hfin.2
  · have hs' : st.speaking = false := by simpa using hs
    simp only [vadStep, hs', Bool.false_eq_true, if_false]
    by_cases hv : rmsGt b threshold = true
    · simp only [hv, if_true]
      right
      exact hb
    · have hv' : rmsGt b threshold = false := by simpa using hv
      simp only [hv', Bool.false_eq_true, if_false]
      exact hst

theorem pollCycle_cap (rate : Nat) (i : CycleInput) (st : LoopState)
    (hrate : rate ≠ 0) (hir : i.rate = rate)
    (hib : i.arriving.length ≤ rate * MAX_PHRASE_SECS)
    (hbuf : st.buffer = [])
    (hst : st.seg.phrase = [] ∨
      st.seg.phrase.length ≤ rate * MAX_PHRASE_SECS) :
    (pollCycle i st).buffer = [] ∧
    ((pollCycle i st).seg.phrase = [] ∨
      (pollCycle i st).seg.phrase.length ≤ rate * MAX_PHRASE_SECS) := by
  subst hir
  by_cases hne : st.buffer ++ i.arriving = []
  · rw [pollCycle_empty_batch i st hrate hne]
    exact ⟨rfl, hst⟩
  by_cases hact : i.isActive = true
  · have h := pollCycle_active_eq i st hact hrate hne
    refine ⟨h.2, ?_⟩
    rw [h.1, hbuf]
    simpa using vadStep_cap i.threshold i.rate i.arriving st.seg hib hst
  · have hact' : i.isActive = false := by simpa using hact
    by_cases hwas : st.wasSessionActive = true
    · rw [pollCycle_falling i st hact' hrate hne hwas]
      exact ⟨rfl, Or.inl rfl⟩
    · have hwas' : st.wasSessionActive = false := by simpa using hwas
      rw [pollCycle_inactive_noop i st hact' hwas']
      exact ⟨by simp [hrate], hst⟩

theorem runLoop_cap (rate : Nat) (hrate : rate ≠ 0) :
    ∀ (inputs : List CycleInput),
      (∀ i ∈ inputs, i.rate = rate ∧
        i.arriving.length ≤ rate * MAX_PHRASE_SECS) →
      ∀ st : LoopState, st.buffer = [] →
        (st.seg.phrase = [] ∨
          st.seg.phrase.length ≤ rate * MAX_PHRASE_SECS) →
        ((runLoop inputs st).buffer = [] ∧
          ((runLoop inputs st).seg.phrase = [] ∨
            (runLoop inputs st).seg.phrase.length ≤
              rate * MAX_PHRASE_SECS)) := by
  intro inputs
  induction inputs with
  | nil => intro _ st hbuf hst; exact ⟨hbuf, hst⟩
  | cons i is ih =>
      intro hin st hbuf hst
      have hi := hin i (List.mem_cons_self i is)
      have hstep := pollCycle_cap rate i st hrate hi.1 hi.2 hbuf hst
      have hrest : runLoop (i :: is) st = runLoop is (pollCycle i st) := rfl
      rw [hrest]
      exact ih (fun j hj => hin j (List.mem_cons_of_mem i hj))
        (pollCycle i st) hstep.1 hstep.2

/-- C4 counterexample: from the initial state, one active poll cycle whose
drained batch is 31 voiced samples at rate 1 (cap `1 * MAX_PHRASE_SECS =
30`) ends with the Segmenter still Speaking and an accumulator of 31 > 30
samples — no finalize fires in that cycle, refuting the claimed end-of-cycle
bound. -/
theorem phrase_cap_counterexample :
    (pollCycle ⟨List.replicate 31 1, 1, true, 0, "", DisplayMode.Both,
        none, none⟩ initLoop).seg.phrase.length = 31 ∧
    1 * MAX_PHRASE_SECS < 31 ∧
    (pollCycle ⟨List.replicate 31 1, 1, true, 0, "", DisplayMode.Both,
        none, none⟩ initLoop).seg.speaking = true := by
  have hv : rmsGt (List.replicate 31 (1 : ℚ)) 0 = true := by
    norm_num [rmsGt, meanSq, sumSq, List.map_replicate, List.sum_replicate]
  have hne : (initLoop.buffer ++ List.replicate 31 (1 : ℚ)) ≠ [] := by
    simp [initLoop]
  have h := pollCycle_active_eq
    ⟨List.replicate 31 1, 1, true, 0, "", DisplayMode.Both, none, none⟩
    initLoop rfl (by norm_num) hne
  rw [h.1]
  have hbb : initLoop.buffer ++ List.replicate 31 (1 : ℚ) =
      List.replicate 31 1 := List.nil_append _
  have hseg0 : initLoop.seg = initSeg := rfl
  have hstep : vadStep 0 1 (List.replicate 31 (1 : ℚ)) initSeg =
      (⟨true, List.replicate 31 1, 0⟩, none) := by
    simp only [vadStep, initSeg, Bool.false_eq_true, if_false, hv, if_true]
  rw [hbb, hseg0, hstep]
  refine ⟨by simp, by norm_num [MAX_PHRASE_SECS], rfl⟩

/-- C4 (amended): provided every drained batch holds at most
`rate * MAX_PHRASE_SECS` samples (here: a fixed non-zero sample rate and
every cycle's arriving samples within the cap, so each cycle drains exactly
its arriving batch), at the end of every poll cycle the accumulator is
empty or holds at most `rate * MAX_PHRASE_SECS` samples; and on any cycle
where appending the batch in the Speaking state makes the accumulator
exceed the cap, finalize fires in that same cycle. -/
theorem phrase_cap_invariant (rate : Nat) (inputs : List CycleInput)
    (hrate : rate ≠ 0)
    (hin : ∀ i ∈ inputs, i.rate = rate ∧
      i.arriving.length ≤ rate * MAX_PHRASE_SECS) :
    ((runLoop inputs initLoop).seg.phrase = [] ∨
      (runLoop inputs initLoop).seg.phrase.length ≤
        rate * MAX_PHRASE_SECS) ∧
    (∀ (threshold : ℚ) (b : List ℚ) (s : SegState), s.speaking = true →
      rate * MAX_PHRASE_SECS < (s.phrase ++ b).length →
      (vadStep threshold rate b s).1 = initSeg) := by
  refine ⟨(runLoop_cap rate hrate inputs hin initLoop rfl (Or.inl rfl)).2, ?_⟩
  intro threshold b s hs hover
  simp only [vadStep, hs, if_true, gt_iff_lt]
  rw [if_pos (Or.inr hover)]
  rfl

theorem phrase_cap_invariant_witness :
    ((runLoop [⟨[1], 1, true, 0, "", DisplayMode.Both, none, none⟩]
        initLoop).seg.phrase = [] ∨
      (runLoop [⟨[1], 1, true, 0, "", DisplayMode.Both, none, none⟩]
        initLoop).seg.phrase.length ≤ 1 * MAX_PHRASE_SECS) ∧
    (vadStep 0 1 (List.replicate 31 (1 : ℚ)) ⟨true, [], 5⟩).1 = initSeg := by
  have h := phrase_cap_invariant 1
    [⟨[1], 1, true, 0, "", DisplayMode.Both, none, none⟩] (by norm_num)
    (by
      intro i hi
      simp only [List.mem_cons, List.not_mem_nil, or_false] at hi
      subst hi
      exact ⟨rfl, by norm_num [MAX_PHRASE_SECS]⟩)
  exact ⟨h.1, h.2 0 (List.replicate 31 1) ⟨true, [], 5⟩ rfl
    (by simp [MAX_PHRASE_SECS])⟩

/-! ## C8: the translation history is bounded by 3 -/

theorem pushTrim_length_le (h : List (String × String)) (p : String × String)
    (hle : h.length ≤ 3) : (pushTrim h p).length ≤ 3 := by
  simp only [pushTrim]
  split
  · simp only [List.length_tail, List.length_append, List.length_cons,
      List.length_nil]
    omega
  · rename_i hc
    push_neg at hc
    simpa using hc

theorem pushTrim_full (h : List (String × String)) (p : String × String)
    (h3 : h.length = 3) : pushTrim h p = h.tail ++ [p] := by
  simp only [pushTrim]
  rw [if_pos (by simp [h3])]
  cases h with
  | nil => simp at h3
  | cons a t => simp

theorem send_transcription_history_le (t : String) (dm : DisplayMode)
    (lo : Bool) (tf cc : Option String) (st : DispatchState)
    (hle : st.history.length ≤ 3) :
    (send_transcription t dm lo tf cc st).1.history.length ≤ 3 := by
  cases tf with
  | none => exact hle
  | some raw =>
      by_cases h1 : strTrim raw = ""
      · simpa [send_transcription, h1] using hle
      · by_cases h2 : t = ""
        · simpa [send_transcription, h1, h2] using hle
        · cases hm : translateResult cc with
          | none => simpa [send_transcription, h1, h2, hm] using hle
          | some tr =>
              simpa [send_transcription, h1, h2, hm] using
                pushTrim_length_le st.history (strTrim raw, tr) hle

theorem sessionEdge_history (a : Bool) (s : LoopState) :
    (sessionEdge a s).dispatch.history = s.dispatch.history := by
  cases a <;> by_cases hw : s.wasSessionActive <;> simp [sessionEdge, hw]

theorem pollCycle_history_le (i : CycleInput) (st : LoopState)
    (hle : st.dispatch.history.length ≤ 3) :
    (pollCycle i st).dispatch.history.length ≤ 3 := by
  by_cases hr : i.rate = 0
  · rw [pollCycle_rate_zero i st hr]; exact hle
  by_cases hne : st.buffer ++ i.arriving = []
  · rw [pollCycle_empty_batch i st hr hne]; exact hle
  by_cases hact : i.isActive = true
  · have hne' : (st.buffer ++ i.arriving).isEmpty = false := by
      simpa [List.isEmpty_iff] using hne
    have hdis : (sessionEdge true { st with buffer := [] }).dispatch.history
        = st.dispatch.history := sessionEdge_history _ _
    simp only [pollCycle, hr, if_false, hne', hact, Bool.not_true,
      Bool.false_eq_true, if_neg]
    cases hm : (vadStep i.threshold i.rate (st.buffer ++ i.arriving)
        (sessionEdge true { st with buffer := [] }).seg).2 with
    | none => simp only [hm]; rw [hdis]; exact hle
    | some p =>
        simp only [hm]
        exact send_transcription_history_le i.targetLanguage i.displayMode
          (sessionEdge true { st with buffer := [] }).logOpen i.textField
          i.chatContent (sessionEdge true { st with buffer := [] }).dispatch
          (by rw [hdis]; exact hle)
  · have hact' : i.isActive = false := by simpa using hact
    by_cases hwas : st.wasSessionActive = true
    · rw [pollCycle_falling i st hact' hr hne hwas]; exact hle
    · have hwas' : st.wasSessionActive = false := by simpa using hwas
      rw [pollCycle_inactive_noop i st hact' hwas']; exact hle

theorem runLoop_history_le (inputs : List CycleInput) :
    ∀ st : LoopState, st.dispatch.history.length ≤ 3 →
      (runLoop inputs st).dispatch.history.length ≤ 3 := by
  induction inputs with
  | nil => intro st hle; exact hle
  | cons i is ih =>
      intro st hle
      have hstep : runLoop (i :: is) st = runLoop is (pollCycle i st) := rfl
      rw [hstep]
      exact ih _ (pollCycle_history_le i st hle)

/-- C8: the translation history never holds more than 3 (original,
translated) pairs — it stays bounded by 3 across any run of the loop and
across any single dispatch — a push at the bound evicts exactly the oldest
pair, and the translation request's message list presents the retained
pairs as (user, assistant) turns in chronological order between the system
instruction and the new user turn. -/
theorem translation_history_bounded :
    (∀ inputs : List CycleInput,
      (runLoop inputs initLoop).dispatch.history.length ≤ 3) ∧
    (∀ (t : String) (dm : DisplayMode) (lo : Bool) (tf cc : Option String)
        (st : DispatchState), st.history.length ≤ 3 →
      (send_transcription t dm lo tf cc st).1.history.length ≤ 3) ∧
    (∀ (h : List (String × String)) (p : String × String), h.length = 3 →
      pushTrim h p = h.tail ++ [p]) ∧
    (∀ (t text : String) (h : List (String × String)),
      translateMessages t text h =
        (("system", systemPrompt t) ::
            h.flatMap (fun p => [("user", p.1), ("assistant", p.2)]))
          ++ [("user", text)]) :=
  ⟨fun inputs => runLoop_history_le inputs initLoop (by simp [initLoop]),
   send_transcription_history_le,
   pushTrim_full,
   fun _ _ _ => rfl⟩

theorem translation_history_bounded_witness :
    pushTrim [("a", "b"), ("c", "d"), ("e", "f")] ("g", "h")
      = [("c", "d"), ("e", "f"), ("g", "h")] ∧
    (send_transcription "en" DisplayMode.Both true (some "hi") (some "salut")
      ⟨"", [("a", "b"), ("c", "d"), ("e", "f")], []⟩).1.history.length ≤ 3 := by
  refine ⟨?_, translation_history_bounded.2.1 "en" DisplayMode.Both true
    (some "hi") (some "salut") ⟨"", [("a", "b"), ("c", "d"), ("e", "f")], []⟩
    (by norm_num)⟩
  have h := translation_history_bounded.2.2.1
    [("a", "b"), ("c", "d"), ("e", "f")] ("g", "h") rfl
  simpa using h

/-! ## C9: WAV encoding

The `as u32` casts make the size fields 32-bit: for `2 * N >= 2^32` (or
`2 * R >= 2^32`) the declared sizes wrap modulo `2^32`, refuting the claim
as universally stated; under `2 * N < 2^32` and `2 * R < 2^32` every claimed
header property holds. -/

theorem i16le_length (i : ℤ) : (i16le i).length = 2 := rfl

theorem flatMap_i16le_length (samples : List ℚ) :
    (samples.flatMap fun s => i16le (sampleToI16 s)).length
      = 2 * samples.length := by
  induction samples with
  | nil => rfl
  | cons a l ih =>
      simp only [List.flatMap_cons, List.length_append, ih, i16le_length,
        List.length_cons]
      ring

theorem parseLE_u16le (n : Nat) (h : n < 2 ^ 16) : parseLE (u16le n) = n := by
  simp only [u16le, parseLE, List.foldr]
  omega

theorem parseLE_u32le (n : Nat) (h : n < U32) : parseLE (u32le n) = n := by
  simp only [U32] at h
  simp only [u32le, parseLE, List.foldr]
  omega

theorem encode_wav_data_size_field (samples : List ℚ) (R : Nat) :
    field (encode_wav samples R) 40 4 = u32le (samples.length * 2 % U32) := by
  simp [encode_wav, field, u32le, u16le, List.drop_succ_cons,
    List.take_succ_cons]

/-- C9 (amended): for every list of `N` samples and rate `R` with
`2N < 2^32` and `2R < 2^32` (the size fields are 32-bit values), the encoder
produces a buffer of exactly `44 + 2N` bytes whose 44-byte header carries
the RIFF/WAVE markers, a 16-byte format chunk declaring PCM format 1, 1
channel, sample rate `R`, byte rate `2R`, block align 2 and 16 bits per
sample, and a data chunk size of exactly `2N` bytes; each sample `s` is
encoded as `clamp(s * 32767, -32768, 32767)` truncated toward zero as a
little-endian 16-bit signed integer. -/
theorem encode_wav_spec (samples : List ℚ) (R : Nat)
    (hR : R * 2 < U32) (hN : samples.length * 2 < U32) :
    (encode_wav samples R).length = 44 + 2 * samples.length ∧
    field (encode_wav samples R) 0 4 = [82, 73, 70, 70] ∧
    field (encode_wav samples R) 8 4 = [87, 65, 86, 69] ∧
    field (encode_wav samples R) 12 4 = [102, 109, 116, 32] ∧
    parseLE (field (encode_wav samples R) 16 4) = 16 ∧
    parseLE (field (encode_wav samples R) 20 2) = 1 ∧
    parseLE (field (encode_wav samples R) 22 2) = 1 ∧
    parseLE (field (encode_wav samples R) 24 4) = R ∧
    parseLE (field (encode_wav samples R) 28 4) = 2 * R ∧
    parseLE (field (encode_wav samples R) 32 2) = 2 ∧
    parseLE (field (encode_wav samples R) 34 2) = 16 ∧
    field (encode_wav samples R) 36 4 = [100, 97, 116, 97] ∧
    parseLE (field (encode_wav samples R) 40 4) = 2 * samples.length ∧
    (encode_wav samples R).drop 44 =
      samples.flatMap (fun s => i16le (sampleToI16 s)) ∧
    ∀ s : ℚ, sampleToI16 s = truncQ (max (-32768) (min 32767 (s * 32767))) := by
  have hRlt : R < U32 := by omega
  refine ⟨?_, ?_, ?_, ?_, ?_, ?_, ?_, ?_, ?_, ?_, ?_, ?_, ?_, ?_,
    fun _ => rfl⟩
  · have hb := flatMap_i16le_length samples
    simp only [encode_wav, List.length_append, u32le, u16le,
      List.length_cons, List.length_nil, hb]
  · simp [encode_wav, field, u32le, u16le, List.drop_succ_cons,
      List.take_succ_cons]
  · simp [encode_wav, field, u32le, u16le, List.drop_succ_cons,
      List.take_succ_cons]
  · simp [encode_wav, field, u32le, u16le, List.drop_succ_cons,
      List.take_succ_cons]
  · have h : field (encode_wav samples R) 16 4 = u32le 16 := by
      simp [encode_wav, field, u32le, u16le, List.drop_succ_cons,
        List.take_succ_cons]
    rw [h, parseLE_u32le 16 (by norm_num [U32])]
  · have h : field (encode_wav samples R) 20 2 = u16le 1 := by
      simp [encode_wav, field, u32le, u16le, List.drop_succ_cons,
        List.take_succ_cons]
    rw [h, parseLE_u16le 1 (by norm_num)]
  · have h : field (encode_wav samples R) 22 2 = u16le 1 := by
      simp [encode_wav, field, u32le, u16le, List.drop_succ_cons,
        List.take_succ_cons]
    rw [h, parseLE_u16le 1 (by norm_num)]
  · have h : field (encode_wav samples R) 24 4 = u32le R := by
      simp [encode_wav, field, u32le, u16le, List.drop_succ_cons,
        List.take_succ_cons]
    rw [h, parseLE_u32le R hRlt]
  · have h : field (encode_wav samples R) 28 4 = u32le (R * 2 % U32) := by
      simp [encode_wav, field, u32le, u16le, List.drop_succ_cons,
        List.take_succ_cons]
    rw [h, Nat.mod_eq_of_lt hR, parseLE_u32le (R * 2) hR]
    ring
  · have h : field (encode_wav samples R) 32 2 = u16le 2 := by
      simp [encode_wav, field, u32le, u16le, List.drop_succ_cons,
        List.take_succ_cons]
    rw [h, parseLE_u16le 2 (by norm_num)]
  · have h : field (encode_wav samples R) 34 2 = u16le 16 := by
      simp [encode_wav, field, u32le, u16le, List.drop_succ_cons,
        List.take_succ_cons]
    rw [h, parseLE_u16le 16 (by norm_num)]
  · simp [encode_wav, field, u32le, u16le, List.drop_succ_cons,
      List.take_succ_cons]
  · rw [encode_wav_data_size_field, Nat.mod_eq_of_lt hN,
      parseLE_u32le (samples.length * 2) hN]
    ring
  · simp [encode_wav, u32le, u16le, List.drop_succ_cons]

theorem encode_wav_spec_witness :
    (encode_wav [(0 : ℚ)] 4).length = 44 + 2 * 1 ∧
    parseLE (field (encode_wav [(0 : ℚ)] 4) 24 4) = 4 ∧
    (encode_wav [(0 : ℚ)] 4).drop 44 = [0, 0] := by
  have h := encode_wav_spec [(0 : ℚ)] 4 (by norm_num [U32])
    (by norm_num [U32])
  obtain ⟨h1, h2, h3, h4, h5, h6, h7, h8, h9, h10, h11, h12, h13, h14, h15⟩ := h
  refine ⟨by simpa using h1, h8, ?_⟩
  rw [h14]
  have h0 : sampleToI16 0 = 0 := by
    have hmin : min (32767 : ℚ) (0 * 32767) = 0 := by norm_num
    have hmax : max (-32768 : ℚ) 0 = 0 := by norm_num
    simp [sampleToI16, hmin, hmax, truncQ]
  simp [h0, i16le, u16le]

/-- C9 counterexample: for `N = 2^31` samples the 32-bit data-size field
wraps modulo `2^32`: the header declares `0` data bytes where the claim
requires `2 * N = 2^32`. -/
theorem encode_wav_size_field_counterexample :
    parseLE (field (encode_wav (List.replicate (2 ^ 31) 0) 8000) 40 4) = 0 ∧
    2 * (List.replicate (2 ^ 31) (0 : ℚ)).length = 2 ^ 32 ∧
    (0 : Nat) ≠ 2 ^ 32 := by
  refine ⟨?_, by rw [List.length_replicate]; norm_num, by norm_num⟩
  rw [encode_wav_data_size_field, List.length_replicate]
  norm_num [U32, parseLE, u32le]

end Livecaptran
